import Mathlib

/-!
Verification development for the `embed_then_regress` ICL transformer
(`optformer/embed_then_regress/icl_transformer.py`).

Shallow embedding conventions:
* Scalars are modelled as `ℚ` (exact arithmetic; the claims under study are
  dataflow and structural properties, not floating-point rounding facts).
* A tensor axis of statically unknown extent is modelled as a `Nat`-indexed
  function; the feature axis (whose width matters for the metadata
  concatenation) is modelled as `List ℚ` so that widths are observable.
* Learned sub-networks (the embedder, the three projectors, the attention
  blocks, the mean/log-std head) are opaque function fields of the model
  structure: every theorem below holds for all instantiations of them, which
  is exactly the source situation where their weights are arbitrary.
* Token sequences are `List ℕ` (token ids).
-/

/-- `EPS = 1e-7` (line 35 of `icl_transformer.py`), as an exact rational. -/
def EPS : ℚ := 1 / 10 ^ 7

/-- The type of one attention block (`Block.__call__`, lines 64-88): it maps a
sequence of `D`-vectors and an `[L, L]` attention mask to a new sequence.
The block internals (layer norm, self-attention, feed-forward, residuals) are
opaque: the claims quantify over all of them. -/
def BlockFn : Type := (Nat → List ℚ) → List (List Bool) → Nat → List ℚ

/-- `EmbeddingCache` (lines 91-96): optional cached context embedding
(`x_emb`, shape `[L, E]`) and optional cached metadata embedding
(`metadata_emb`, shape `[E]`). -/
structure EmbeddingCache where
  x_emb : Option (Nat → List ℚ) := none
  metadata_emb : Option (List ℚ) := none

instance : Inhabited EmbeddingCache := ⟨{}⟩

/-- The `ICLTransformer` module (lines 99-140) after `setup`: its learned
sub-networks and configuration. `d_model`, `ffw_dim_ratio`, `nhead`, `dropout`
only shape the opaque sub-networks, so they do not appear separately;
`num_layers` is `encoder_layers.length`. -/
structure ICLTransformer where
  x_proj : List ℚ → List ℚ
  y_proj : List ℚ → List ℚ
  xy_proj : List ℚ → List ℚ
  encoder_layers : List BlockFn
  mean_logstd_head : List ℚ → ℚ × ℚ
  std_transform_fn : ℚ → ℚ
  use_metadata : Bool
  embedder : List ℕ → List ℚ

namespace ICLTransformer

/-- `embed` (lines 246-252): reshape to `[-1, T]`, apply the embedder row-wise,
reshape back. On the functional representation the reshape discipline is the
identity, so `embed` is the pointwise application of the embedder over the
leading axes; this is the one-leading-axis instance (`[L, T] → [L, E]`). -/
def embed (M : ICLTransformer) (tokens : Nat → List ℕ) : Nat → List ℚ :=
  fun i => M.embedder (tokens i)

/-- The two-leading-axes instance of `embed` (`[B, L, T] → [B, L, E]`),
used by `fit` (line 191). -/
def embed2 (M : ICLTransformer) (tokens : Nat → Nat → List ℕ) :
    Nat → Nat → List ℚ :=
  fun b l => M.embedder (tokens b l)

/-- Line 158: `y = y * mask` — element-wise multiplication of the float `y`
by the boolean mask (`True ↦ 1.0`, `False ↦ 0.0`), forcing `0.0` at target
positions. -/
def maskY (y : Nat → Nat → ℚ) (mask : Nat → Nat → Bool) : Nat → Nat → ℚ :=
  fun b l => y b l * (if mask b l then 1 else 0)

/-- Lines 167-168 for one batch element: `jnp.expand_dims(mask, axis=1)` turns
the `[L]` mask into a single row `[1, L]`, and `jnp.repeat(·, L, axis=1)`
stacks `L` copies of that row, giving the `[L, L]` attention-mask matrix. -/
def attnMaskMat (m : Nat → Bool) (L : Nat) : List (List Bool) :=
  List.replicate L ((List.range L).map m)

/-- The encoder stack (lines 170-172): fold the attention blocks over the
fused embeddings, passing the same attention-mask matrix to every layer. -/
def runLayers (layers : List BlockFn) (amask : List (List Bool))
    (x : Nat → List ℚ) : Nat → List ℚ :=
  layers.foldl (fun acc layer => layer acc amask) x

/-- `ICLTransformer.__call__` (lines 142-179): the raw masked forward pass.
Inputs: x-embeddings `[B, L, E]`, y-values `[B, L]`, boolean context mask
`[B, L]`; output: `(mean, std)`, each `[B, L]`. -/
def call (M : ICLTransformer) (L : Nat)
    (x_emb : Nat → Nat → List ℚ) (y : Nat → Nat → ℚ)
    (mask : Nat → Nat → Bool) : (Nat → Nat → ℚ) × (Nat → Nat → ℚ) :=
  -- line 155: x_emb = self.x_proj(x_emb)
  let xp := fun b l => M.x_proj (x_emb b l)
  -- line 158: y = y * mask
  let ym := maskY y mask
  -- lines 160-161: expand y to [B, L, 1], project
  let yt_emb := fun b l => M.y_proj [ym b l]
  -- line 162: xy_emb = self.xy_proj(concat(x_emb, yt_emb, axis=-1))
  let xy_emb := fun b l => M.xy_proj (xp b l ++ yt_emb b l)
  -- lines 170-172: out = fold of encoder layers, all with the mask of
  -- lines 167-168 (the head axis is a broadcast, elided here)
  let out := fun b => runLayers M.encoder_layers (attnMaskMat (mask b) L) (xy_emb b)
  -- lines 174-178: head, split into mean / raw std, transform + EPS, squeeze
  let mean := fun b l => (M.mean_logstd_head (out b l)).1
  let std := fun b l => M.std_transform_fn (M.mean_logstd_head (out b l)).2 + EPS
  (mean, std)

/-- `fit` (lines 181-200): embed the x tokens; when `use_metadata`, embed the
metadata once per batch element, broadcast it across all `L` positions
(`expand_dims` + `repeat`, lines 196-197 — the identity on the functional
representation) and concatenate it feature-wise onto each x-embedding
(line 198); then delegate to `call` (line 200). -/
def fit (M : ICLTransformer) (L : Nat)
    (x : Nat → Nat → List ℕ) (y : Nat → Nat → ℚ)
    (metadata : Nat → List ℕ) (mask : Nat → Nat → Bool) :
    (Nat → Nat → ℚ) × (Nat → Nat → ℚ) :=
  let x_emb := M.embed2 x
  let x_emb2 :=
    if M.use_metadata then
      fun b l => x_emb b l ++ M.embedder (metadata b)
    else x_emb
  M.call L x_emb2 y mask

end ICLTransformer

/-- Line 222 for `infer`: `target_index = jnp.sum(mask, dtype=jnp.int32)` —
the sum over the length-`L` boolean mask with `True` cast to `1`. -/
def sumMask (m : Nat → Bool) (L : Nat) : Nat :=
  (List.range L).foldl (fun acc p => acc + (if m p then 1 else 0)) 0

/-- A zero row of the same width as `row` (`jnp.zeros_like` on one row of the
`[L, E]` operand, line 223). -/
def zerosLike (row : List ℚ) : List ℚ :=
  row.map (fun _ => 0)

/-- `jax.lax.dynamic_update_slice_in_dim` on axis 0 of an `[L, E]` operand
with a `[Q, E]` update (lines 224-226). JAX clamps the start index into
`[0, L - Q]` so the update always fits; on naturals the lower clamp is free
and the upper clamp is `min start (L - Q)`. Rows `[s, s + Q)` of the result
come from the update, all other rows from the operand. -/
def dynamicUpdateSliceInDim (operand update : Nat → List ℚ) (L Q start : Nat) :
    Nat → List ℚ :=
  let s := min start (L - Q)
  fun p => if s ≤ p ∧ p < s + Q then update (p - s) else operand p

/-- Lines 223-226: the overlay buffer — target embeddings written into a
zero-initialized buffer shaped like the cached context embedding, starting at
`target_index`. -/
def inferOverlay (x_pad_emb x_targ_emb : Nat → List ℚ) (L Q tIndex : Nat) :
    Nat → List ℚ :=
  dynamicUpdateSliceInDim (fun p => zerosLike (x_pad_emb p)) x_targ_emb L Q tIndex

/-- Lines 227-228 on one row: `w_mask`-weighted combination
`x_pad_emb * w + padded_target_emb * (1 - w)` with `w = 1` at context
positions and `w = 0` at target positions. -/
def combineByMask (m : Bool) (ctx ov : List ℚ) : List ℚ :=
  let w : ℚ := if m then 1 else 0
  List.zipWith (fun a b => a * w + b * (1 - w)) ctx ov

/-- The combined embedding of lines 227-228, row-indexed. -/
def inferCombine (mask : Nat → Bool) (x_pad_emb ov : Nat → List ℚ) :
    Nat → List ℚ :=
  fun p => combineByMask (mask p) (x_pad_emb p) (ov p)

namespace ICLTransformer

/-- Lines 216-218: if the cache holds no `x_emb`, embed `x_padded` and store
it via `dataclasses.replace`; return the (now cached) context embedding
together with the cache to use from here on. -/
def populateX (M : ICLTransformer) (x_padded : Nat → List ℕ)
    (cache : EmbeddingCache) : (Nat → List ℚ) × EmbeddingCache :=
  match cache.x_emb with
  | none =>
      let e := M.embed x_padded
      (e, { cache with x_emb := some e })
  | some e => (e, cache)

/-- Lines 231-233: the same lazy population for the metadata embedding. -/
def populateMeta (M : ICLTransformer) (metadata : List ℕ)
    (cache : EmbeddingCache) : List ℚ × EmbeddingCache :=
  match cache.metadata_emb with
  | none =>
      let e := M.embedder metadata
      (e, { cache with metadata_emb := some e })
  | some e => (e, cache)

/-- `infer` (lines 202-244): single-sequence inference with caching.
`x_padded : [L, T]`, `y_padded : [L]`, `x_targ : [Q, T]`, `metadata : [T]`,
`mask : [L]`; returns `(mean [L], std [L], updated cache)`. -/
def infer (M : ICLTransformer) (L Q : Nat)
    (x_padded : Nat → List ℕ) (y_padded : Nat → ℚ) (x_targ : Nat → List ℕ)
    (metadata : List ℕ) (mask : Nat → Bool) (cache : EmbeddingCache) :
    (Nat → ℚ) × (Nat → ℚ) × EmbeddingCache :=
  -- lines 216-218
  let pc := M.populateX x_padded cache
  let x_pad_emb := pc.1
  let cache1 := pc.2
  -- line 219: target embeddings are computed fresh on every call
  let x_targ_emb := M.embed x_targ
  -- line 222
  let tIndex := sumMask mask L
  -- lines 223-226
  let padded_target_emb := inferOverlay x_pad_emb x_targ_emb L Q tIndex
  -- lines 227-228
  let x_emb := inferCombine mask x_pad_emb padded_target_emb
  -- lines 230-236: optionally attach (cached) metadata embeddings
  let mc :=
    if M.use_metadata then
      let pm := M.populateMeta metadata cache1
      ((fun l => x_emb l ++ pm.1), pm.2)
    else (x_emb, cache1)
  -- lines 238-244: delegate to `call` with a leading batch axis of 1,
  -- deterministic mode, then squeeze the batch axis away
  let ms := M.call L (fun _ => mc.1) (fun _ => y_padded) (fun _ => mask)
  (ms.1 0, ms.2 0, mc.2)

end ICLTransformer

/-!
Object-level model of cache population, for the frame/immutability claim.
`EmbeddingCache` is a `flax.struct.dataclass` (a frozen dataclass); line 217
and line 232 populate it with `dataclasses.replace`, which allocates a fresh
object and leaves the argument object untouched. We make that observable with
an explicit object store: a list of cache objects addressed by index. -/

/-- An object store: Python-level heap of `EmbeddingCache` objects, addressed
by allocation index. -/
structure CacheStore where
  objs : List EmbeddingCache

namespace CacheStore

/-- Read the object at address `r`. -/
def get (h : CacheStore) (r : Nat) : EmbeddingCache :=
  h.objs.getD r default

/-- Allocate a fresh object (what `dataclasses.replace` does): append it to
the store and return its new address. -/
def alloc (h : CacheStore) (c : EmbeddingCache) : CacheStore × Nat :=
  (⟨h.objs ++ [c]⟩, h.objs.length)

end CacheStore

/-- Lines 216-217 at the object level: when the addressed cache has no
`x_emb`, `dataclasses.replace` builds a fresh object (allocation) and the
local `cache` name is rebound to its address; otherwise nothing happens. -/
def stepX (M : ICLTransformer) (x_padded : Nat → List ℕ)
    (s : CacheStore × Nat) : CacheStore × Nat :=
  match (s.1.get s.2).x_emb with
  | none => s.1.alloc { s.1.get s.2 with x_emb := some (M.embed x_padded) }
  | some _ => s

/-- Lines 231-232 at the object level, for the metadata slot. -/
def stepMeta (M : ICLTransformer) (metadata : List ℕ)
    (s : CacheStore × Nat) : CacheStore × Nat :=
  match (s.1.get s.2).metadata_emb with
  | none =>
      s.1.alloc { s.1.get s.2 with metadata_emb := some (M.embedder metadata) }
  | some _ => s

/-- The cache-touching steps of `infer` (lines 216-217 and 230-232) at the
object level: the caller passes the address of its cache object; the final
address is what line 244 returns. No store cell is ever overwritten. -/
def inferCacheSteps (M : ICLTransformer) (x_padded : Nat → List ℕ)
    (metadata : List ℕ) (h : CacheStore) (r : Nat) : CacheStore × Nat :=
  let s1 := stepX M x_padded (h, r)
  if M.use_metadata then stepMeta M metadata s1 else s1

/-!
Concrete instantiations used by the witness theorems: a minimal model with all
opaque sub-networks fixed to simple computable functions. -/

/-- A concrete model instance (no metadata). -/
def M0 : ICLTransformer where
  x_proj := id
  y_proj := id
  xy_proj := id
  encoder_layers := []
  mean_logstd_head := fun v => (v.headD 0, v.headD 0)
  std_transform_fn := fun _ => 1
  use_metadata := false
  embedder := fun t => [(t.headD 0 : ℚ), (t.length : ℚ)]

/-- The concrete model with metadata enabled. -/
def M1 : ICLTransformer :=
  { M0 with use_metadata := true }

/-- Concrete batched mask: position 0 is context, the rest are targets. -/
def mask0 : Nat → Nat → Bool := fun _ l => decide (l = 0)

/-- Concrete y batch number one. -/
def y1w : Nat → Nat → ℚ := fun _ l => (l : ℚ)

/-- Concrete y batch number two: agrees with `y1w` exactly on the context
positions of `mask0`. -/
def y2w : Nat → Nat → ℚ := fun _ _ => 0

/-- Concrete x-embedding batch. -/
def xembw : Nat → Nat → List ℚ := fun _ _ => [1, 2]

open ICLTransformer

/-- `EPS` is strictly positive. -/
theorem EPS_pos : 0 < EPS := by norm_num [EPS]

/-- C1: information hiding in `call`. If two y batches agree at every
context position (where the mask is `True`), then `call` returns identical
`(mean, std)` for both, because line 158 multiplies y by the mask before any
other use of y. -/
theorem call_info_hiding (M : ICLTransformer) (L : Nat)
    (x_emb : Nat → Nat → List ℚ) (y1 y2 : Nat → Nat → ℚ)
    (mask : Nat → Nat → Bool)
    (h : ∀ b l, mask b l = true → y1 b l = y2 b l) :
    M.call L x_emb y1 mask = M.call L x_emb y2 mask := by
  have hm : maskY y1 mask = maskY y2 mask := by
    funext b l
    unfold maskY
    cases hbl : mask b l with
    | false => simp
    | true => simp [h b l hbl]
  simp only [ICLTransformer.call, hm]

/-- Witness for C1 at concrete inputs: `y1w` and `y2w` differ at every target
position yet `call` cannot tell them apart. -/
theorem call_info_hiding_witness :
    (∀ b l, mask0 b l = true → y1w b l = y2w b l) ∧
    M0.call 2 xembw y1w mask0 = M0.call 2 xembw y2w mask0 := by
  have h : ∀ b l, mask0 b l = true → y1w b l = y2w b l := by
    intro b l hl
    have hl0 : l = 0 := by simpa [mask0] using hl
    subst hl0
    simp [y1w, y2w]
  exact ⟨h, call_info_hiding M0 2 xembw y1w y2w mask0 h⟩

/-- C2: the `[L, L]` attention mask built by `call` (lines 167-168) is
bipartite — entry `(i, j)` equals `m j` for every row `i < L`, every row
equals row `0`, and the encoder fold threads that one matrix unchanged
through every layer (splitting the layer list anywhere, both parts run with
the same derived mask). -/
theorem attnMask_bipartite (m : Nat → Bool) (L i j : Nat)
    (hi : i < L) (hj : j < L) :
    ((attnMaskMat m L).getD i []).getD j false = m j ∧
    (attnMaskMat m L).getD i [] = (attnMaskMat m L).getD 0 [] ∧
    ∀ (l1 l2 : List BlockFn) (x : Nat → List ℚ),
      runLayers (l1 ++ l2) (attnMaskMat m L) x =
        runLayers l2 (attnMaskMat m L) (runLayers l1 (attnMaskMat m L) x) := by
  have hrow : ∀ k, k < L → (attnMaskMat m L).getD k [] = (List.range L).map m := by
    intro k hk
    simp [attnMaskMat, List.getD_eq_getElem?_getD, List.getElem?_replicate, hk]
  refine ⟨?_, ?_, ?_⟩
  · rw [hrow i hi]
    simp [List.getD_eq_getElem?_getD, List.getElem?_map, List.getElem?_range, hj]
  · rw [hrow i hi, hrow 0 (Nat.pos_of_ne_zero (by omega))]
  · intro l1 l2 x
    simp [runLayers, List.foldl_append]

/-- Witness for C2 at `L = 3`, `m = (· < 2)`, `i = 1`, `j = 2`. -/
theorem attnMask_bipartite_witness :
    ((attnMaskMat (fun p => decide (p < 2)) 3).getD 1 []).getD 2 false =
      decide ((2 : Nat) < 2) ∧
    (attnMaskMat (fun p => decide (p < 2)) 3).getD 1 [] =
      (attnMaskMat (fun p => decide (p < 2)) 3).getD 0 [] := by
  have H := attnMask_bipartite (fun p => decide (p < 2)) 3 1 2
    (by decide) (by decide)
  exact ⟨H.1, H.2.1⟩

/-- C3: strict positivity of the returned std. Whenever the configured
`std_transform_fn` is a positive mapping (the §4.3/§4.4 contract: softplus,
exp, ...), every std entry returned by `call` is strictly greater than `EPS`,
and in particular strictly positive. -/
theorem call_std_pos (M : ICLTransformer) (L : Nat)
    (x_emb : Nat → Nat → List ℚ) (y : Nat → Nat → ℚ)
    (mask : Nat → Nat → Bool) (b l : Nat)
    (hpos : ∀ r, 0 < M.std_transform_fn r) :
    EPS < (M.call L x_emb y mask).2 b l ∧ 0 < (M.call L x_emb y mask).2 b l := by
  have hv : (M.call L x_emb y mask).2 b l =
      M.std_transform_fn
        (M.mean_logstd_head
          (runLayers M.encoder_layers (attnMaskMat (mask b) L)
            (fun l2 => M.xy_proj
              (M.x_proj (x_emb b l2) ++ M.y_proj [maskY y mask b l2])) l)).2
        + EPS := rfl
  rw [hv]
  constructor
  · exact lt_add_of_pos_left EPS (hpos _)
  · exact add_pos (hpos _) EPS_pos

/-- Witness for C3 at the concrete model `M0` (whose transform is constantly
`1`), batch `0`, position `0`. -/
theorem call_std_pos_witness :
    EPS < (M0.call 2 xembw y1w mask0).2 0 0 ∧
    0 < (M0.call 2 xembw y1w mask0).2 0 0 :=
  call_std_pos M0 2 xembw y1w mask0 0 0 (fun r => by norm_num [M0])

/-- Folding boolean indicators sums to the count of `True` entries. -/
theorem foldl_boolSum (m : Nat → Bool) (l : List Nat) (n : Nat) :
    l.foldl (fun acc p => acc + (if m p then 1 else 0)) n = n + l.countP m := by
  induction l generalizing n with
  | nil => simp
  | cons x xs ih =>
    simp only [List.foldl_cons, List.countP_cons, ih]
    cases hx : m x
    · simp [hx]
    · simp [hx]
      omega

/-- `zipWith` of the left projection returns the left list when lengths
agree. -/
theorem zipWith_proj_left (a b : List ℚ) (h : b.length = a.length) :
    List.zipWith (fun x _ => x) a b = a := by
  induction a generalizing b with
  | nil => simp
  | cons x xs ih =>
    cases b with
    | nil => simp at h
    | cons y ys =>
      rw [List.zipWith_cons_cons, ih ys (by simpa using h)]

/-- `zipWith` of the right projection returns the right list when lengths
agree. -/
theorem zipWith_proj_right (a b : List ℚ) (h : a.length = b.length) :
    List.zipWith (fun _ y => y) a b = b := by
  induction a generalizing b with
  | nil => cases b with
    | nil => simp
    | cons y ys => simp at h
  | cons x xs ih =>
    cases b with
    | nil => simp at h
    | cons y ys =>
      rw [List.zipWith_cons_cons, ih ys (by simpa using h)]

/-- At a context position (`w = 1`) the lines-227-228 combination returns the
cached row. -/
theorem combineByMask_true (ctx ov : List ℚ) (h : ov.length = ctx.length) :
    combineByMask true ctx ov = ctx := by
  have hw : combineByMask true ctx ov =
      List.zipWith (fun a b => a * 1 + b * (1 - 1)) ctx ov := rfl
  have hf : (fun (a b : ℚ) => a * 1 + b * (1 - 1)) = fun (a _ : ℚ) => a := by
    funext a b; ring
  rw [hw, hf]
  exact zipWith_proj_left ctx ov h

/-- At a target position (`w = 0`) the lines-227-228 combination returns the
overlay row. -/
theorem combineByMask_false (ctx ov : List ℚ) (h : ctx.length = ov.length) :
    combineByMask false ctx ov = ov := by
  have hw : combineByMask false ctx ov =
      List.zipWith (fun a b => a * 0 + b * (1 - 0)) ctx ov := rfl
  have hf : (fun (a b : ℚ) => a * 0 + b * (1 - 0)) = fun (_ b : ℚ) => b := by
    funext a b; ring
  rw [hw, hf]
  exact zipWith_proj_right ctx ov h

/-- Concrete mask for the C4 scenario: `[True, True, True, False, False]`. -/
def mC4 : Nat → Bool := fun p => decide (p < 3)

/-- Concrete cached-context rows. -/
def xpad4 : Nat → List ℚ := fun _ => [5, 5]

/-- Concrete target-embedding rows. -/
def xtarg4 : Nat → List ℚ := fun q => [(q : ℚ), 7]

/-- C4: overlay placement in `infer`. `target_index` (line 222) equals the
number of `True` entries of the length-`L` mask, and — under the in-capacity
precondition `target_index + Q ≤ L` — the overlay buffer of lines 223-226
holds the `Q` target embeddings exactly at positions
`[target_index, target_index + Q)` and the zero row everywhere else. -/
theorem infer_target_overlay (m : Nat → Bool) (L Q : Nat)
    (x_pad_emb x_targ_emb : Nat → List ℚ)
    (hfit : sumMask m L + Q ≤ L) :
    sumMask m L = (List.range L).countP m ∧
    (∀ p, sumMask m L ≤ p → p < sumMask m L + Q →
      inferOverlay x_pad_emb x_targ_emb L Q (sumMask m L) p =
        x_targ_emb (p - sumMask m L)) ∧
    (∀ p, p < sumMask m L ∨ sumMask m L + Q ≤ p →
      inferOverlay x_pad_emb x_targ_emb L Q (sumMask m L) p =
        zerosLike (x_pad_emb p)) := by
  have hcount : sumMask m L = (List.range L).countP m := by
    unfold sumMask
    rw [foldl_boolSum]
    omega
  have hclamp : min (sumMask m L) (L - Q) = sumMask m L := by omega
  refine ⟨hcount, ?_, ?_⟩
  · intro p hp1 hp2
    simp only [inferOverlay, dynamicUpdateSliceInDim, hclamp]
    rw [if_pos ⟨hp1, hp2⟩]
  · intro p hp
    simp only [inferOverlay, dynamicUpdateSliceInDim, hclamp]
    rw [if_neg (by omega)]

/-- Witness for C4: `mask = [True, True, True, False, False]` gives
`target_index = 3`, and `Q = 2` targets land at positions `3` and `4` with
the zero row elsewhere (here at position `2`). -/
theorem infer_target_overlay_witness :
    sumMask mC4 5 = 3 ∧
    inferOverlay xpad4 xtarg4 5 2 (sumMask mC4 5) 3 = xtarg4 (3 - sumMask mC4 5) ∧
    inferOverlay xpad4 xtarg4 5 2 (sumMask mC4 5) 4 = xtarg4 (4 - sumMask mC4 5) ∧
    inferOverlay xpad4 xtarg4 5 2 (sumMask mC4 5) 2 = zerosLike (xpad4 2) := by
  have H := infer_target_overlay mC4 5 2 xpad4 xtarg4 (by decide)
  exact ⟨by decide, H.2.1 3 (by decide) (by decide),
    H.2.1 4 (by decide) (by decide), H.2.2 2 (Or.inl (by decide))⟩

/-- Concrete mask for the C5 witness. -/
def mC5 : Nat → Bool := fun p => decide (p % 2 = 0)

/-- Concrete cached rows for the C5 witness. -/
def ctx5 : Nat → List ℚ := fun _ => [1, 2]

/-- Concrete overlay rows for the C5 witness. -/
def ov5 : Nat → List ℚ := fun _ => [3, 4]

/-- C5: combine-by-mask selection (lines 227-228). At every position the
combined embedding is the cached context row when the mask is `True` there
and the overlay row when it is `False`, provided the two rows have the same
width (the `[L, E]` shape contract). -/
theorem infer_combine_select (m : Nat → Bool) (x_pad_emb ov : Nat → List ℚ)
    (p : Nat) (hlen : (ov p).length = (x_pad_emb p).length) :
    inferCombine m x_pad_emb ov p = if m p then x_pad_emb p else ov p := by
  unfold inferCombine
  cases hm : m p with
  | false => simpa [hm] using combineByMask_false (x_pad_emb p) (ov p) hlen.symm
  | true => simpa [hm] using combineByMask_true (x_pad_emb p) (ov p) hlen

/-- Witness for C5 at position `1` (a target position of `mC5`). -/
theorem infer_combine_select_witness :
    inferCombine mC5 ctx5 ov5 1 = if mC5 1 then ctx5 1 else ov5 1 :=
  infer_combine_select mC5 ctx5 ov5 1 (by decide)

/-- If the cache already holds `x_emb = some v`, lines 216-218 return `v`
and leave the cache as is. -/
theorem populateX_some (M : ICLTransformer) (xp : Nat → List ℕ)
    (c : EmbeddingCache) (v : Nat → List ℚ) (h : c.x_emb = some v) :
    M.populateX xp c = (v, c) := by
  simp only [ICLTransformer.populateX, h]

/-- If the cache holds no `x_emb`, lines 216-218 embed `x_padded` and store
the result. -/
theorem populateX_none (M : ICLTransformer) (xp : Nat → List ℕ)
    (c : EmbeddingCache) (h : c.x_emb = none) :
    M.populateX xp c = (M.embed xp, { c with x_emb := some (M.embed xp) }) := by
  simp only [ICLTransformer.populateX, h]

/-- Lines 216-218 never touch the metadata slot of the cache. -/
theorem populateX_meta (M : ICLTransformer) (xp : Nat → List ℕ)
    (c : EmbeddingCache) : (M.populateX xp c).2.metadata_emb = c.metadata_emb := by
  cases hx : c.x_emb <;> simp [ICLTransformer.populateX, hx]

/-- If the cache already holds `metadata_emb = some w`, lines 231-233 return
`w` and leave the cache as is. -/
theorem populateMeta_some (M : ICLTransformer) (md : List ℕ)
    (c : EmbeddingCache) (w : List ℚ) (h : c.metadata_emb = some w) :
    M.populateMeta md c = (w, c) := by
  simp only [ICLTransformer.populateMeta, h]

/-- Lines 231-233 never touch the `x_emb` slot of the cache. -/
theorem populateMeta_x (M : ICLTransformer) (md : List ℕ)
    (c : EmbeddingCache) : (M.populateMeta md c).2.x_emb = c.x_emb := by
  cases hm : c.metadata_emb <;> simp [ICLTransformer.populateMeta, hm]

/-- The cache returned by `infer` (line 244) is the one produced by the two
population steps. -/
theorem infer_cache_eq (M : ICLTransformer) (L Q : Nat)
    (x_padded : Nat → List ℕ) (y_padded : Nat → ℚ) (x_targ : Nat → List ℕ)
    (metadata : List ℕ) (mask : Nat → Bool) (cache : EmbeddingCache) :
    (M.infer L Q x_padded y_padded x_targ metadata mask cache).2.2 =
      if M.use_metadata then
        (M.populateMeta metadata (M.populateX x_padded cache).2).2
      else (M.populateX x_padded cache).2 := by
  cases hum : M.use_metadata <;> simp [ICLTransformer.infer, hum]

/-- C6: cache write-once. A populated `x_emb` is passed through `infer`
untouched (never recomputed); an absent `x_emb` is populated from
`x_padded`; and with metadata enabled a populated `metadata_emb` is likewise
passed through untouched. -/
theorem infer_cache_write_once (M : ICLTransformer) (L Q : Nat)
    (x_padded : Nat → List ℕ) (y_padded : Nat → ℚ) (x_targ : Nat → List ℕ)
    (metadata : List ℕ) (mask : Nat → Bool) (cache : EmbeddingCache) :
    (∀ v, cache.x_emb = some v →
      ((M.infer L Q x_padded y_padded x_targ metadata mask cache).2.2).x_emb
        = some v) ∧
    (cache.x_emb = none →
      ((M.infer L Q x_padded y_padded x_targ metadata mask cache).2.2).x_emb
        = some (M.embed x_padded)) ∧
    (∀ w, M.use_metadata = true → cache.metadata_emb = some w →
      ((M.infer L Q x_padded y_padded x_targ metadata mask cache).2.2).metadata_emb
        = some w) := by
  refine ⟨?_, ?_, ?_⟩
  · intro v hv
    rw [infer_cache_eq]
    cases hum : M.use_metadata
    · simp [hum, hv, populateX_some M x_padded cache v hv]
    · simp [hum, hv, populateMeta_x, populateX_some M x_padded cache v hv]
  · intro hv
    rw [infer_cache_eq]
    cases hum : M.use_metadata
    · simp [hum, populateX_none M x_padded cache hv]
    · simp [hum, populateMeta_x, populateX_none M x_padded cache hv]
  · intro w hum hw
    rw [infer_cache_eq]
    have h1 : (M.populateX x_padded cache).2.metadata_emb = some w := by
      rw [populateX_meta]; exact hw
    simp [hum, populateMeta_some M metadata _ w h1, h1]

/-- Concrete populated context embedding for the cache witnesses. -/
def vW : Nat → List ℚ := fun _ => [9]

/-- Concrete fully-populated cache. -/
def cW : EmbeddingCache := { x_emb := some vW, metadata_emb := some [4] }

/-- Concrete padded-context tokens. -/
def xpTok : Nat → List ℕ := fun _ => [1]

/-- A second, different padded-context token array. -/
def xpTok2 : Nat → List ℕ := fun _ => [2, 3]

/-- Concrete padded y. -/
def ypw : Nat → ℚ := fun _ => 0

/-- Concrete target tokens. -/
def xtTok : Nat → List ℕ := fun _ => [2]

/-- Concrete inference mask. -/
def mW : Nat → Bool := fun p => decide (p = 0)

/-- Witness for C6 at the populated cache `cW` and the metadata-enabled
model `M1`. -/
theorem infer_cache_write_once_witness :
    ((M1.infer 2 1 xpTok ypw xtTok [] mW cW).2.2).x_emb = some vW ∧
    ((M1.infer 2 1 xpTok ypw xtTok [] mW cW).2.2).metadata_emb = some [4] := by
  have H := infer_cache_write_once M1 2 1 xpTok ypw xtTok [] mW cW
  exact ⟨H.1 vW rfl, H.2.2 [4] rfl rfl⟩

/-- C9: with a populated cache, `infer` is independent of `x_padded` — the
argument is read only inside the cache-empty branch of lines 216-217. -/
theorem infer_ignores_x_padded (M : ICLTransformer) (L Q : Nat)
    (xp1 xp2 : Nat → List ℕ) (y_padded : Nat → ℚ) (x_targ : Nat → List ℕ)
    (metadata : List ℕ) (mask : Nat → Bool) (cache : EmbeddingCache)
    (v : Nat → List ℚ) (hv : cache.x_emb = some v) :
    M.infer L Q xp1 y_padded x_targ metadata mask cache =
      M.infer L Q xp2 y_padded x_targ metadata mask cache := by
  simp only [ICLTransformer.infer, populateX_some M xp1 cache v hv,
    populateX_some M xp2 cache v hv]

/-- Witness for C9: two different `x_padded` arrays, one populated cache,
identical results. -/
theorem infer_ignores_x_padded_witness :
    M0.infer 2 1 xpTok ypw xtTok [] mW cW =
      M0.infer 2 1 xpTok2 ypw xtTok [] mW cW :=
  infer_ignores_x_padded M0 2 1 xpTok xpTok2 ypw xtTok [] mW cW vW rfl

/-- Allocation never disturbs an existing store cell. -/
theorem get_alloc_old (h : CacheStore) (c : EmbeddingCache) (i : Nat)
    (hi : i < h.objs.length) : (h.alloc c).1.get i = h.get i := by
  simp [CacheStore.alloc, CacheStore.get,
    List.getD_eq_getElem?_getD, List.getElem?_append, hi]

/-- Reading the freshly allocated address yields the new object. -/
theorem get_alloc_new (h : CacheStore) (c : EmbeddingCache) :
    (h.alloc c).1.get (h.alloc c).2 = c := by
  simp [CacheStore.alloc, CacheStore.get, List.getD_eq_getElem?_getD,
    List.getElem?_append_right (le_refl h.objs.length)]

/-- Allocation grows the store by one cell. -/
theorem alloc_length (h : CacheStore) (c : EmbeddingCache) :
    (h.alloc c).1.objs.length = h.objs.length + 1 := by
  simp [CacheStore.alloc]

/-- The x-population step never disturbs an existing store cell. -/
theorem stepX_frame (M : ICLTransformer) (xp : Nat → List ℕ)
    (s : CacheStore × Nat) (i : Nat) (hi : i < s.1.objs.length) :
    (stepX M xp s).1.get i = s.1.get i := by
  unfold stepX
  cases hx : (s.1.get s.2).x_emb with
  | none => exact get_alloc_old s.1 _ i hi
  | some v => rfl

/-- The x-population step never shrinks the store. -/
theorem stepX_mono (M : ICLTransformer) (xp : Nat → List ℕ)
    (s : CacheStore × Nat) :
    s.1.objs.length ≤ (stepX M xp s).1.objs.length := by
  unfold stepX
  cases hx : (s.1.get s.2).x_emb with
  | none => rw [alloc_length]; omega
  | some v => exact le_refl _

/-- After the x-population step applied to an address holding an `x_emb`-less
cache, the returned address holds the embedded `x_padded`. -/
theorem stepX_post (M : ICLTransformer) (xp : Nat → List ℕ)
    (s : CacheStore × Nat) (hx : (s.1.get s.2).x_emb = none) :
    ((stepX M xp s).1.get (stepX M xp s).2).x_emb = some (M.embed xp) := by
  unfold stepX
  rw [hx, get_alloc_new]

/-- The metadata-population step never disturbs an existing store cell. -/
theorem stepMeta_frame (M : ICLTransformer) (md : List ℕ)
    (s : CacheStore × Nat) (i : Nat) (hi : i < s.1.objs.length) :
    (stepMeta M md s).1.get i = s.1.get i := by
  unfold stepMeta
  cases hm : (s.1.get s.2).metadata_emb with
  | none => exact get_alloc_old s.1 _ i hi
  | some w => rfl

/-- The metadata-population step preserves the `x_emb` slot at the returned
address. -/
theorem stepMeta_x (M : ICLTransformer) (md : List ℕ)
    (s : CacheStore × Nat) :
    ((stepMeta M md s).1.get (stepMeta M md s).2).x_emb =
      (s.1.get s.2).x_emb := by
  unfold stepMeta
  cases hm : (s.1.get s.2).metadata_emb with
  | none => rw [get_alloc_new]
  | some w => rfl

/-- C7: cache immutability. The population steps of `infer`
(`dataclasses.replace`, lines 216-217 and 230-232) never overwrite the store
cell holding the caller's cache object: after the call the original object is
unchanged (in particular an empty cache is still empty), and the populated
cache is reachable only through the returned address. -/
theorem inferCacheSteps_frame (M : ICLTransformer) (x_padded : Nat → List ℕ)
    (metadata : List ℕ) (h : CacheStore) (r : Nat)
    (hr : r < h.objs.length) :
    (inferCacheSteps M x_padded metadata h r).1.get r = h.get r ∧
    ((h.get r).x_emb = none →
      ((inferCacheSteps M x_padded metadata h r).1.get
        (inferCacheSteps M x_padded metadata h r).2).x_emb =
          some (M.embed x_padded)) := by
  have hr1 : r < (stepX M x_padded (h, r)).1.objs.length :=
    lt_of_lt_of_le hr (stepX_mono M x_padded (h, r))
  constructor
  · cases hum : M.use_metadata with
    | false =>
      simp only [inferCacheSteps, hum, if_neg Bool.false_ne_true]
      exact stepX_frame M x_padded (h, r) r hr
    | true =>
      simp only [inferCacheSteps, hum, if_pos trivial]
      rw [stepMeta_frame M metadata _ r hr1]
      exact stepX_frame M x_padded (h, r) r hr
  · intro hx
    cases hum : M.use_metadata with
    | false =>
      simp only [inferCacheSteps, hum, if_neg Bool.false_ne_true]
      exact stepX_post M x_padded (h, r) hx
    | true =>
      simp only [inferCacheSteps, hum, if_pos trivial]
      rw [stepMeta_x M metadata _]
      exact stepX_post M x_padded (h, r) hx

/-- Concrete one-cell store holding an empty cache. -/
def store0 : CacheStore := ⟨[{}]⟩

/-- Witness for C7: a store with one empty cache at address `0`; after the
population steps the original cell is unchanged and the populated cache sits
at the returned (fresh) address. -/
theorem inferCacheSteps_frame_witness :
    (inferCacheSteps M1 xpTok [] store0 0).1.get 0 = store0.get 0 ∧
    ((inferCacheSteps M1 xpTok [] store0 0).1.get
      (inferCacheSteps M1 xpTok [] store0 0).2).x_emb = some (M1.embed xpTok) := by
  have H := inferCacheSteps_frame M1 xpTok [] store0 0 (by decide)
  exact ⟨H.1, H.2 rfl⟩

/-- C8: `fit` metadata composition. With metadata enabled, `fit` hands
`call` the row-wise concatenation of the x-embedding with the (per-batch,
position-broadcast) metadata embedding — width `2 * E` when the embedder
produces width-`E` vectors; with metadata disabled the x-embeddings reach
`call` unmodified. -/
theorem fit_metadata_concat (M : ICLTransformer) (L E : Nat)
    (x : Nat → Nat → List ℕ) (y : Nat → Nat → ℚ)
    (metadata : Nat → List ℕ) (mask : Nat → Nat → Bool)
    (hE : ∀ t, (M.embedder t).length = E) :
    (M.use_metadata = true →
      M.fit L x y metadata mask =
        M.call L (fun b l => M.embedder (x b l) ++ M.embedder (metadata b))
          y mask ∧
      ∀ b l, (M.embedder (x b l) ++ M.embedder (metadata b)).length = 2 * E) ∧
    (M.use_metadata = false →
      M.fit L x y metadata mask =
        M.call L (fun b l => M.embedder (x b l)) y mask) := by
  constructor
  · intro hum
    constructor
    · simp [ICLTransformer.fit, ICLTransformer.embed2, hum]
    · intro b l
      simp [List.length_append, hE]
      omega
  · intro hum
    have hd : M.fit L x y metadata mask = M.call L (M.embed2 x) y mask := by
      simp [ICLTransformer.fit, hum]
    rw [hd]
    rfl

/-- Concrete batched token array for the C8 witness. -/
def xTokB : Nat → Nat → List ℕ := fun _ _ => [1, 2]

/-- Concrete batched metadata tokens for the C8 witness. -/
def mdB : Nat → List ℕ := fun _ => [3]

/-- Witness for C8 at the metadata-enabled model `M1`, whose embedder always
produces width-2 vectors: `fit` delegates to `call` on the concatenated
embeddings and the concatenated width is `2 * 2`. -/
theorem fit_metadata_concat_witness :
    M1.fit 2 xTokB y2w mdB mask0 =
      M1.call 2 (fun b l => M1.embedder (xTokB b l) ++ M1.embedder (mdB b))
        y2w mask0 ∧
    (M1.embedder (xTokB 0 0) ++ M1.embedder (mdB 0)).length = 2 * 2 := by
  have H := (fit_metadata_concat M1 2 2 xTokB y2w mdB mask0 (fun t => rfl)).1 rfl
  exact ⟨H.1, H.2 0 0⟩

/-- Concrete mask for the C10 witness: 2 context positions in capacity 3. -/
def mC10 : Nat → Bool := fun p => decide (p < 2)

/-- C10: over-capacity clamping. When `target_index + Q > L` (with
`Q ≤ L`), the dynamic-slice start index is clamped to `L - Q`, so the `Q`
target embeddings are written at positions `[L - Q, L)` — overlapping
context slots — and the subsequent mask-select still returns the cached row
at every mask-`True` position (same-width rows assumed, the `[L, E]` shape
contract). -/
theorem infer_overlay_clamp (m : Nat → Bool) (L Q : Nat)
    (x_pad_emb x_targ_emb : Nat → List ℚ)
    (hover : L < sumMask m L + Q) (hQL : Q ≤ L) :
    (∀ p, L - Q ≤ p → p < L →
      inferOverlay x_pad_emb x_targ_emb L Q (sumMask m L) p =
        x_targ_emb (p - (L - Q))) ∧
    (∀ p, m p = true →
      (inferOverlay x_pad_emb x_targ_emb L Q (sumMask m L) p).length =
        (x_pad_emb p).length →
      inferCombine m x_pad_emb
        (inferOverlay x_pad_emb x_targ_emb L Q (sumMask m L)) p =
          x_pad_emb p) := by
  have hclamp : min (sumMask m L) (L - Q) = L - Q := by omega
  constructor
  · intro p hp1 hp2
    simp only [inferOverlay, dynamicUpdateSliceInDim, hclamp]
    rw [if_pos ⟨hp1, by omega⟩]
  · intro p hm hlen
    unfold inferCombine
    rw [hm]
    exact combineByMask_true _ _ hlen

/-- Witness for C10: `L = 3`, `Q = 2`, two context positions
(`target_index = 2`, so `2 + 2 > 3`): the write is clamped to start at
`L - Q = 1`, the overlay at position `1` is target row `0`, and the combine
still returns the cached row at context position `1`. -/
theorem infer_overlay_clamp_witness :
    inferOverlay xpad4 xtarg4 3 2 (sumMask mC10 3) 1 = xtarg4 (1 - (3 - 2)) ∧
    inferCombine mC10 xpad4 (inferOverlay xpad4 xtarg4 3 2 (sumMask mC10 3)) 1 =
      xpad4 1 := by
  have H := infer_overlay_clamp mC10 3 2 xpad4 xtarg4 (by decide) (by decide)
  exact ⟨H.1 1 (by decide) (by decide), H.2 1 (by decide) (by decide)⟩

